import Mathlib

/-!
# The `projmgr` Go examples: `projmgr-list.go` and `projmgr-validate.go`

Both programs are thin clients of the native project manager library reached
through a generated binding layer.  The native library is not part of the
sources, so it is a parameter of the embedding (`Library`); what the two
`main` functions do with it is translated statement by statement.

A run is recorded as a chronological trace of the observable events (calls
into the library, vector accesses, lines printed) together with the fault that
ended it, if any.
-/

namespace Projmgr

/-! ## The binding surface -/

/-- Modelled from the spec: the `StringVector` binding type (the generated
wrapper of a vector of strings) is declared outside the two source files.  It
is the "result sequence" of the data model: an ordered sequence of strings in
which duplicates are kept and the empty sequence is a valid value. -/
structure StringVector where
  items : List String
deriving DecidableEq, Repr

/-- Modelled from the spec: `projmgr.NewStringVector()`, a fresh, empty
result sequence. -/
def NewStringVector : StringVector := ⟨[]⟩

/-- Modelled from the spec: `v.IsEmpty()`, whether the sequence has no
element. -/
def StringVector.IsEmpty (v : StringVector) : Bool := v.items.isEmpty

/-- Modelled from the spec: `v.Size()`, the number of elements, as a signed
integer (the element count of a vector of strings always fits the signed
64-bit range, so the conversion `int(v.Size())` is the identity). -/
def StringVector.Size (v : StringVector) : Int := v.items.length

/-- Modelled from the spec: `v.Get(i)`, the element at index `i`; an index
outside `0 <= i < Size` takes the out-of-range branch, which raises a fault
instead of returning. -/
def StringVector.Get (v : StringVector) (i : Int) : Except String String :=
  if 0 ≤ i ∧ i < v.Size then
    match v.items[i.toNat]? with
    | some s => .ok s
    | none => .error "vector index out of range"
  else .error "vector index out of range"

/-- The native library behind the binding, for a native state of type `σ`:
`NewProjMgr` is the state of a freshly built manager (`GetWorker` and
`GetParser` hand out views on it), the two inventory queries take the
architecture token and the vector to fill and give back the filled vector, and
the parser gives its verdict on a path.  Each call may change the native
state. -/
structure Library (σ : Type) where
  NewProjMgr : σ
  ListPacks : σ → String → StringVector → σ × StringVector
  ListDevices : σ → String → StringVector → σ × StringVector
  ParseCsolution : σ → String → σ × Bool

/-- The part of the process environment a program can read: `os.Args`, the
program name followed by the positional arguments. -/
structure Process where
  Args : List String
deriving DecidableEq, Repr

/-! ## Runs -/

/-- Observable events of a run, in the order they happen. -/
inductive Event where
  | ListPacks (arch : String) (vec : StringVector)
  | ListDevices (arch : String) (vec : StringVector)
  | ParseCsolution (path : String)
  | Get (vec : StringVector) (i : Int)
  | Println (s : String)
deriving DecidableEq, Repr

/-- A finished run: its trace and the runtime fault that ended it (`none`
when `main` returned normally). -/
structure Run where
  trace : List Event
  fault : Option String
deriving DecidableEq, Repr

/-- Exit code of the process: 0 when `main` returns, 2 after a runtime
fault. -/
def Run.exitCode (r : Run) : Nat :=
  match r.fault with
  | none => 0
  | some _ => 2

/-- Text written to standard output: `fmt.Println(s)` writes `s` and a
newline. -/
def stdout : List Event → String
  | [] => ""
  | .Println s :: tr => s ++ "\n" ++ stdout tr
  | _ :: tr => stdout tr

/-- Arguments of the `fmt.Println` calls, in order. -/
def printed : List Event → List String
  | [] => []
  | .Println s :: tr => s :: printed tr
  | _ :: tr => printed tr

/-- Paths the parser was asked about, in order. -/
def parsedPaths : List Event → List String
  | [] => []
  | .ParseCsolution p :: tr => p :: parsedPaths tr
  | _ :: tr => parsedPaths tr

/-- Whether an event is an inventory query. -/
def Event.isQuery : Event → Bool
  | .ListPacks _ _ => true
  | .ListDevices _ _ => true
  | _ => false

/-- Whether an event is the device query. -/
def Event.isListDevices : Event → Bool
  | .ListDevices _ _ => true
  | _ => false

/-- Whether a vector access stays inside the vector it is made on (every
other event passes). -/
def Event.inRange : Event → Bool
  | .Get v i => decide (0 ≤ i ∧ i < v.Size)
  | _ => true

/-- Indices of the vector accesses, in order. -/
def accesses : List Event → List Int
  | [] => []
  | .Get _ i :: tr => i :: accesses tr
  | _ :: tr => accesses tr

/-- Number of newline characters of a text. -/
def newlines (s : String) : Nat := s.data.count '\n'

/-- Inventory queries of a run, in order. -/
def queries (tr : List Event) : List Event := tr.filter Event.isQuery

/-- Events of the pack section: everything before the device query. -/
def packPart (tr : List Event) : List Event :=
  tr.takeWhile (fun e => !e.isListDevices)

/-- Events of the device section: the device query and everything after. -/
def devicePart (tr : List Event) : List Event :=
  tr.dropWhile (fun e => !e.isListDevices)

/-! ## `projmgr-list.go` -/

namespace ProjmgrList

/-- The loop of lines 18-20 and of lines 27-29 (the same statement on
`packVector` and on `deviceVector`):
`for i := 0; i < int(v.Size()); i++ { fmt.Println(v.Get(i)) }`,
entered at index `i` with the trace so far.  A fault of `Get` ends the run.
The counter never passes `Size`, so it stays inside the range of `int`. -/
def forLoop (v : StringVector) (i : Int) (tr : List Event) : Run :=
  if i < v.Size then
    match v.Get i with
    | .ok s => forLoop v (i + 1) (tr ++ [.Get v i, .Println s])
    | .error e => ⟨tr ++ [.Get v i], some e⟩
  else ⟨tr, none⟩
termination_by (v.Size - i).toNat
decreasing_by omega

/-- The `main` function of `projmgr-list.go`.  Each query is logged with the
vector handed to it; the vector variable then holds what the query left in
it.  The second block is reached only if the first one ended without a
fault. -/
def main {σ : Type} (lib : Library σ) (_proc : Process) : Run :=
  let manager := lib.NewProjMgr
  let worker := manager
  let packVector := NewStringVector
  let tr := [Event.ListPacks "ARM" packVector]
  let (worker, packVector) := lib.ListPacks worker "ARM" packVector
  let r :=
    if !packVector.IsEmpty then
      forLoop packVector 0 (tr ++ [.Println "\nInstalled 'ARM' packs:"])
    else ⟨tr, none⟩
  match r.fault with
  | some _ => r
  | none =>
    let deviceVector := NewStringVector
    let tr := r.trace ++ [Event.ListDevices "ARM" deviceVector]
    let (_, deviceVector) := lib.ListDevices worker "ARM" deviceVector
    if !deviceVector.IsEmpty then
      forLoop deviceVector 0 (tr ++ [.Println "\nInstalled 'ARM' devices:"])
    else ⟨tr, none⟩

/-- What `ListPacks("ARM", packVector)` leaves in the vector. -/
def packsResult {σ : Type} (lib : Library σ) : List String :=
  (lib.ListPacks lib.NewProjMgr "ARM" NewStringVector).2.items

/-- What `ListDevices("ARM", deviceVector)`, made after the pack query,
leaves in the vector. -/
def devicesResult {σ : Type} (lib : Library σ) : List String :=
  (lib.ListDevices (lib.ListPacks lib.NewProjMgr "ARM" NewStringVector).1 "ARM"
    NewStringVector).2.items

/-- Events of a completed pass of the loop over the elements `xs` that sit
at index `k` and after: one access and one printed line per element. -/
def loopEvents (v : StringVector) : Nat → List String → List Event
  | _, [] => []
  | k, s :: xs => .Get v k :: .Println s :: loopEvents v (k + 1) xs

/-- Events of one guarded block of `main`: nothing for an empty vector, else
the header line and a completed pass of the loop. -/
def sectionEvents (header : String) (v : StringVector) : List Event :=
  if v.items = [] then [] else .Println header :: loopEvents v 0 v.items

/-- Reference definition of one section of the output, as the specification
words it: empty for an empty result, else a blank line, the header for the
kind `k`, and each identifier on a line of its own, in order. -/
def sectionText (k : String) (xs : List String) : String :=
  match xs with
  | [] => ""
  | _ :: _ => "\nInstalled 'ARM' " ++ k ++ ":\n" ++ String.join (xs.map (fun x => x ++ "\n"))

end ProjmgrList

/-! ## `projmgr-validate.go` -/

namespace ProjmgrValidate

/-- The index expression `os.Args[i]`: out of range is a runtime fault. -/
def index (args : List String) (i : Nat) : Except String String :=
  match args[i]? with
  | some s => .ok s
  | none => .error "runtime error: index out of range"

/-- The `main` function of `projmgr-validate.go`.  The argument
`os.Args[1]` is evaluated before the call it is passed to, and once more for
the line to print. -/
def main {σ : Type} (lib : Library σ) (proc : Process) : Run :=
  let manager := lib.NewProjMgr
  let parser := manager
  match index proc.Args 1 with
  | .error e => ⟨[], some e⟩
  | .ok path =>
    let tr := [Event.ParseCsolution path]
    if (lib.ParseCsolution parser path).2 == true then
      match index proc.Args 1 with
      | .error e => ⟨tr, some e⟩
      | .ok arg => ⟨tr ++ [.Println (arg ++ " was parsed successfully")], none⟩
    else ⟨tr, none⟩

end ProjmgrValidate

/-! ## Test libraries -/

/-- A stateless library with fixed inventories and a fixed verdict. -/
def fixedLibrary (packs devices : List String) (verdict : Bool) : Library Unit where
  NewProjMgr := ()
  ListPacks := fun _ _ _ => ((), ⟨packs⟩)
  ListDevices := fun _ _ _ => ((), ⟨devices⟩)
  ParseCsolution := fun _ _ => ((), verdict)

/-! ## Traces -/

theorem stdout_append (a b : List Event) : stdout (a ++ b) = stdout a ++ stdout b := by
  induction a with
  | nil => simp [stdout]
  | cons e a ih => cases e <;> simp [stdout, ih, String.append_assoc]

theorem printed_append (a b : List Event) : printed (a ++ b) = printed a ++ printed b := by
  induction a with
  | nil => simp [printed]
  | cons e a ih => cases e <;> simp [printed, ih]

theorem accesses_append (a b : List Event) :
    accesses (a ++ b) = accesses a ++ accesses b := by
  induction a with
  | nil => simp [accesses]
  | cons e a ih => cases e <;> simp [accesses, ih]

theorem newlines_append (s t : String) : newlines (s ++ t) = newlines s + newlines t := by
  simp [newlines]

theorem packPart_append_devicePart (tr : List Event) :
    packPart tr ++ devicePart tr = tr := by
  simp [packPart, devicePart]

theorem packPart_split (a b : List Event) (arch : String) (v : StringVector)
    (h : ∀ e ∈ a, e.isListDevices = false) :
    packPart (a ++ .ListDevices arch v :: b) = a := by
  induction a with
  | nil => simp [packPart, Event.isListDevices]
  | cons e a ih =>
    have he : e.isListDevices = false := h e (by simp)
    have ha : ∀ x ∈ a, x.isListDevices = false := fun x hx => h x (by simp [hx])
    have := ih ha
    simp only [packPart] at this ⊢
    simp [List.takeWhile_cons, he, this]

theorem devicePart_split (a b : List Event) (arch : String) (v : StringVector)
    (h : ∀ e ∈ a, e.isListDevices = false) :
    devicePart (a ++ .ListDevices arch v :: b) = .ListDevices arch v :: b := by
  induction a with
  | nil => simp [devicePart, Event.isListDevices]
  | cons e a ih =>
    have he : e.isListDevices = false := h e (by simp)
    have ha : ∀ x ∈ a, x.isListDevices = false := fun x hx => h x (by simp [hx])
    have := ih ha
    simp only [devicePart] at this ⊢
    simp [List.dropWhile_cons, he, this]

/-! ## The loop of `projmgr-list.go` -/

namespace ProjmgrList

theorem get_of_drop (v : StringVector) (k : Nat) (s : String) (xs : List String)
    (h : v.items.drop k = s :: xs) : v.Get (k : Int) = .ok s := by
  have hk : k < v.items.length := by
    by_contra hc
    rw [List.drop_eq_nil_of_le (by omega)] at h
    cases h
  have hs : v.items[k]? = some s := by
    have hh := List.head?_drop v.items k
    rw [h] at hh
    simpa using hh.symm
  simp [StringVector.Get, StringVector.Size, hk, hs]

theorem forLoop_drop (v : StringVector) (xs : List String) :
    ∀ (k : Nat) (tr : List Event), v.items.drop k = xs →
      forLoop v (k : Int) tr = ⟨tr ++ loopEvents v k xs, none⟩ := by
  induction xs with
  | nil =>
    intro k tr h
    have hk : v.items.length ≤ k := by simpa using h
    rw [forLoop]
    simp [StringVector.Size, loopEvents, hk]
  | cons s xs ih =>
    intro k tr h
    have hk : k < v.items.length := by
      by_contra hc
      rw [List.drop_eq_nil_of_le (by omega)] at h
      cases h
    have hnext : v.items.drop (k + 1) = xs := by
      rw [← List.drop_drop, h]
      rfl
    rw [forLoop]
    have hlt : (k : Int) < v.Size := by simp [StringVector.Size, hk]
    rw [if_pos hlt, get_of_drop v k s xs h]
    have := ih (k + 1) (tr ++ [.Get v k, .Println s]) hnext
    simp only [Nat.cast_add, Nat.cast_one] at this
    simp [this, loopEvents]

/-- A pass of the loop from index 0 completes, having accessed and printed
every element in order. -/
theorem forLoop_zero (v : StringVector) (tr : List Event) :
    forLoop v 0 tr = ⟨tr ++ loopEvents v 0 v.items, none⟩ := by
  have := forLoop_drop v v.items 0 tr (by simp)
  simpa using this

/-- The run of `main`, in closed form. -/
theorem main_eq {σ : Type} (lib : Library σ) (proc : Process) :
    main lib proc =
      ⟨.ListPacks "ARM" NewStringVector ::
          (sectionEvents "\nInstalled 'ARM' packs:" ⟨packsResult lib⟩ ++
            .ListDevices "ARM" NewStringVector ::
              sectionEvents "\nInstalled 'ARM' devices:" ⟨devicesResult lib⟩),
        none⟩ := by
  obtain ⟨m, lp, ld, pc⟩ := lib
  simp only [main, packsResult, devicesResult, sectionEvents, forLoop_zero,
    StringVector.IsEmpty]
  generalize lp m "ARM" NewStringVector = rp
  obtain ⟨w, ⟨p⟩⟩ := rp
  generalize ld w "ARM" NewStringVector = rd
  obtain ⟨w2, ⟨d⟩⟩ := rd
  cases p <;> cases d <;> simp

theorem join_cons (a : String) (l : List String) :
    String.join (a :: l) = a ++ String.join l := by
  apply String.ext
  simp [String.data_join]

theorem printed_loopEvents (v : StringVector) (xs : List String) :
    ∀ k : Nat, printed (loopEvents v k xs) = xs := by
  induction xs with
  | nil => intro k; rfl
  | cons s xs ih => intro k; simp [loopEvents, printed, ih]

theorem stdout_loopEvents (v : StringVector) (xs : List String) :
    ∀ k : Nat, stdout (loopEvents v k xs) = String.join (xs.map (fun x => x ++ "\n")) := by
  induction xs with
  | nil => intro k; rfl
  | cons s xs ih => intro k; simp [loopEvents, stdout, ih, join_cons, String.append_assoc]

theorem accesses_loopEvents (v : StringVector) (xs : List String) :
    ∀ k : Nat, accesses (loopEvents v k xs) = (List.range' k xs.length).map Int.ofNat := by
  induction xs with
  | nil => intro k; rfl
  | cons s xs ih => intro k; simp [loopEvents, accesses, ih, List.range'_succ]

theorem loopEvents_inRange (v : StringVector) (xs : List String) :
    ∀ k : Nat, v.items.drop k = xs → ∀ e ∈ loopEvents v k xs, e.inRange = true := by
  induction xs with
  | nil => intro k _ e he; simp [loopEvents] at he
  | cons s xs ih =>
    intro k h e he
    have hk : k < v.items.length := by
      by_contra hc
      rw [List.drop_eq_nil_of_le (by omega)] at h
      cases h
    have hnext : v.items.drop (k + 1) = xs := by
      rw [← List.drop_drop, h]
      rfl
    simp only [loopEvents, List.mem_cons] at he
    rcases he with rfl | rfl | he
    · simp [Event.inRange, StringVector.Size, hk]
    · rfl
    · exact ih (k + 1) hnext e he

theorem loopEvents_not_query (v : StringVector) (xs : List String) :
    ∀ k : Nat, ∀ e ∈ loopEvents v k xs, e.isQuery = false ∧ e.isListDevices = false := by
  induction xs with
  | nil => intro k e he; simp [loopEvents] at he
  | cons s xs ih =>
    intro k e he
    simp only [loopEvents, List.mem_cons] at he
    rcases he with rfl | rfl | he
    · exact ⟨rfl, rfl⟩
    · exact ⟨rfl, rfl⟩
    · exact ih (k + 1) e he

theorem sectionEvents_not_query (header : String) (v : StringVector) :
    ∀ e ∈ sectionEvents header v, e.isQuery = false ∧ e.isListDevices = false := by
  intro e he
  unfold sectionEvents at he
  split at he
  · simp at he
  · simp only [List.mem_cons] at he
    rcases he with rfl | he
    · exact ⟨rfl, rfl⟩
    · exact loopEvents_not_query v v.items 0 e he

theorem sectionEvents_inRange (header : String) (v : StringVector) :
    ∀ e ∈ sectionEvents header v, e.inRange = true := by
  intro e he
  unfold sectionEvents at he
  split at he
  · simp at he
  · simp only [List.mem_cons] at he
    rcases he with rfl | he
    · rfl
    · exact loopEvents_inRange v v.items 0 (by simp) e he

theorem printed_sectionEvents (header : String) (v : StringVector) :
    printed (sectionEvents header v) = if v.items = [] then [] else header :: v.items := by
  unfold sectionEvents
  split
  · rfl
  · simp [printed, printed_loopEvents]

theorem stdout_sectionEvents (header : String) (v : StringVector) :
    stdout (sectionEvents header v) =
      if v.items = [] then ""
      else header ++ "\n" ++ String.join (v.items.map (fun x => x ++ "\n")) := by
  unfold sectionEvents
  split
  · rfl
  · simp [stdout, stdout_loopEvents]

theorem accesses_sectionEvents (header : String) (v : StringVector) :
    accesses (sectionEvents header v) = (List.range v.items.length).map Int.ofNat := by
  unfold sectionEvents
  split
  · rename_i h; simp [h, accesses]
  · simp [accesses, accesses_loopEvents, List.range_eq_range']

theorem queries_sectionEvents (header : String) (v : StringVector) :
    queries (sectionEvents header v) = [] := by
  unfold queries
  rw [List.filter_eq_nil_iff]
  intro e he
  simp [(sectionEvents_not_query header v e he).1]

/-- The pack section of a run of `main`, in closed form. -/
theorem packPart_main {σ : Type} (lib : Library σ) (proc : Process) :
    packPart (main lib proc).trace =
      .ListPacks "ARM" NewStringVector ::
        sectionEvents "\nInstalled 'ARM' packs:" ⟨packsResult lib⟩ := by
  rw [main_eq]
  have := packPart_split
    (.ListPacks "ARM" NewStringVector :: sectionEvents "\nInstalled 'ARM' packs:" ⟨packsResult lib⟩)
    (sectionEvents "\nInstalled 'ARM' devices:" ⟨devicesResult lib⟩) "ARM" NewStringVector
    (by
      intro e he
      simp only [List.mem_cons] at he
      rcases he with rfl | he
      · rfl
      · exact (sectionEvents_not_query _ _ e he).2)
  simpa using this

/-- The device section of a run of `main`, in closed form. -/
theorem devicePart_main {σ : Type} (lib : Library σ) (proc : Process) :
    devicePart (main lib proc).trace =
      .ListDevices "ARM" NewStringVector ::
        sectionEvents "\nInstalled 'ARM' devices:" ⟨devicesResult lib⟩ := by
  rw [main_eq]
  have := devicePart_split
    (.ListPacks "ARM" NewStringVector :: sectionEvents "\nInstalled 'ARM' packs:" ⟨packsResult lib⟩)
    (sectionEvents "\nInstalled 'ARM' devices:" ⟨devicesResult lib⟩) "ARM" NewStringVector
    (by
      intro e he
      simp only [List.mem_cons] at he
      rcases he with rfl | he
      · rfl
      · exact (sectionEvents_not_query _ _ e he).2)
  simpa using this

/-! ## Claims on `projmgr-list.go` -/

/-- C2: when `ListPacks("ARM")` leaves the vector empty, the pack section of
the run consists of the query alone: no line is printed in it (no pack
header, no pack line) and its text is empty. -/
theorem list_no_packs_no_section {σ : Type} (lib : Library σ) (proc : Process)
    (h : packsResult lib = []) :
    packPart (main lib proc).trace = [.ListPacks "ARM" NewStringVector] ∧
      printed (packPart (main lib proc).trace) = [] ∧
      stdout (packPart (main lib proc).trace) = "" := by
  have hp := packPart_main lib proc
  rw [h] at hp
  rw [hp]
  simp [sectionEvents, printed, stdout]

theorem list_no_packs_no_section_witness :
    packsResult (fixedLibrary [] ["STM32F407"] true) = [] ∧
      printed (packPart
        (main (fixedLibrary [] ["STM32F407"] true) ⟨["list"]⟩).trace) = [] :=
  ⟨rfl, (list_no_packs_no_section (fixedLibrary [] ["STM32F407"] true) ⟨["list"]⟩ rfl).2.1⟩

/-- C3: when `ListPacks("ARM")` fills the vector with `n >= 1` strings, the
lines printed in the pack section are the header line (a blank line and
`Installed 'ARM' packs:`) followed by exactly those `n` strings, in the order
of the vector and with duplicates kept; they are read at the indices
`0, 1, ..., n-1` in that order, and the text of the section is the header
followed by each string on a line of its own. -/
theorem list_packs_section {σ : Type} (lib : Library σ) (proc : Process)
    (h : 1 ≤ (packsResult lib).length) :
    printed (packPart (main lib proc).trace) =
        "\nInstalled 'ARM' packs:" :: packsResult lib ∧
      accesses (packPart (main lib proc).trace) =
        (List.range (packsResult lib).length).map Int.ofNat ∧
      stdout (packPart (main lib proc).trace) =
        "\nInstalled 'ARM' packs:\n" ++
          String.join ((packsResult lib).map (fun x => x ++ "\n")) := by
  have hne : packsResult lib ≠ [] := by
    intro hc
    simp [hc] at h
  have hhdr : "\nInstalled 'ARM' packs:" ++ "\n" = "\nInstalled 'ARM' packs:\n" := by decide
  rw [packPart_main]
  refine ⟨?_, ?_, ?_⟩
  · simp [printed, printed_sectionEvents, hne]
  · simp [accesses, accesses_sectionEvents]
  · simp [stdout, stdout_sectionEvents, hne, hhdr]

theorem list_packs_section_witness :
    printed (packPart
        (main (fixedLibrary ["B.y", "A.x", "B.y"] [] true) ⟨["list"]⟩).trace) =
      ["\nInstalled 'ARM' packs:", "B.y", "A.x", "B.y"] :=
  (list_packs_section (fixedLibrary ["B.y", "A.x", "B.y"] [] true) ⟨["list"]⟩
    (by decide)).1

/-- C4: the device section has the shape of the pack section and comes
after it: it prints nothing when `ListDevices("ARM")` leaves the vector empty,
and otherwise the header line (a blank line and `Installed 'ARM' devices:`)
followed by exactly the strings of the vector, read at the indices
`0, ..., m-1` in order; and all the lines of a run are the lines of the pack
section followed by the lines of the device section. -/
theorem list_devices_section {σ : Type} (lib : Library σ) (proc : Process) :
    printed (devicePart (main lib proc).trace) =
        (if devicesResult lib = [] then []
         else "\nInstalled 'ARM' devices:" :: devicesResult lib) ∧
      accesses (devicePart (main lib proc).trace) =
        (List.range (devicesResult lib).length).map Int.ofNat ∧
      stdout (devicePart (main lib proc).trace) =
        (if devicesResult lib = [] then ""
         else "\nInstalled 'ARM' devices:\n" ++
          String.join ((devicesResult lib).map (fun x => x ++ "\n"))) ∧
      printed (main lib proc).trace =
        (if packsResult lib = [] then []
         else "\nInstalled 'ARM' packs:" :: packsResult lib) ++
        (if devicesResult lib = [] then []
         else "\nInstalled 'ARM' devices:" :: devicesResult lib) := by
  have hhdr : "\nInstalled 'ARM' devices:" ++ "\n" = "\nInstalled 'ARM' devices:\n" := by
    decide
  refine ⟨?_, ?_, ?_, ?_⟩
  · rw [devicePart_main]
    simp [printed, printed_sectionEvents]
  · rw [devicePart_main]
    simp [accesses, accesses_sectionEvents]
  · rw [devicePart_main]
    simp [stdout, stdout_sectionEvents, hhdr]
  · rw [main_eq]
    simp only [printed]
    rw [printed_append]
    simp [printed, printed_sectionEvents]

/-- C5: the two sections are independent.  Of two runs, on any two libraries
and command lines, the device sections are the same whenever the
`ListDevices` results are the same, whatever the `ListPacks` results are, and
the pack sections are the same whenever the `ListPacks` results are the same.
The device query is made into a fresh (empty) vector, and the device section
is printed in full also when the pack result is empty. -/
theorem list_sections_independent {σ τ : Type} (lib₁ : Library σ) (lib₂ : Library τ)
    (proc₁ proc₂ : Process) :
    (devicesResult lib₁ = devicesResult lib₂ →
        devicePart (main lib₁ proc₁).trace = devicePart (main lib₂ proc₂).trace) ∧
      (packsResult lib₁ = packsResult lib₂ →
        packPart (main lib₁ proc₁).trace = packPart (main lib₂ proc₂).trace) ∧
      (devicePart (main lib₁ proc₁).trace).head? =
        some (.ListDevices "ARM" NewStringVector) ∧
      (packsResult lib₁ = [] →
        printed (main lib₁ proc₁).trace =
          (if devicesResult lib₁ = [] then []
           else "\nInstalled 'ARM' devices:" :: devicesResult lib₁)) := by
  refine ⟨?_, ?_, ?_, ?_⟩
  · intro h
    rw [devicePart_main, devicePart_main, h]
  · intro h
    rw [packPart_main, packPart_main, h]
  · rw [devicePart_main]
    rfl
  · intro h
    rw [main_eq, h]
    have hnil : sectionEvents "\nInstalled 'ARM' packs:" ⟨[]⟩ = [] := rfl
    rw [hnil]
    simp [printed, printed_sectionEvents]

theorem list_sections_independent_witness :
    devicePart (main (fixedLibrary ["P1", "P2"] ["D1"] true) ⟨["list"]⟩).trace =
        devicePart (main (fixedLibrary [] ["D1"] false) ⟨["list", "x"]⟩).trace ∧
      packPart (main (fixedLibrary ["P1"] ["D1", "D2"] true) ⟨["list"]⟩).trace =
        packPart (main (fixedLibrary ["P1"] [] true) ⟨["list"]⟩).trace ∧
      printed (main (fixedLibrary [] ["D1"] false) ⟨["list", "x"]⟩).trace =
        ["\nInstalled 'ARM' devices:", "D1"] :=
  ⟨(list_sections_independent (fixedLibrary ["P1", "P2"] ["D1"] true)
      (fixedLibrary [] ["D1"] false) ⟨["list"]⟩ ⟨["list", "x"]⟩).1 rfl,
    (list_sections_independent (fixedLibrary ["P1"] ["D1", "D2"] true)
      (fixedLibrary ["P1"] [] true) ⟨["list"]⟩ ⟨["list"]⟩).2.1 rfl,
    (list_sections_independent (fixedLibrary [] ["D1"] false)
      (fixedLibrary [] ["D1"] false) ⟨["list", "x"]⟩ ⟨["list", "x"]⟩).2.2.2 rfl⟩

/-- C7: whatever the two vectors the library returns, the run of `main`
completes without a fault, with exit code 0, and every access `Get(i)` of the
run is made at an index `0 <= i < Size` of the vector it reads: the
out-of-range branch of the access is never taken. -/
theorem list_never_faults {σ : Type} (lib : Library σ) (proc : Process) :
    (main lib proc).fault = none ∧ (main lib proc).exitCode = 0 ∧
      ∀ (v : StringVector) (i : Int), Event.Get v i ∈ (main lib proc).trace →
        0 ≤ i ∧ i < v.Size := by
  rw [main_eq]
  refine ⟨rfl, rfl, ?_⟩
  intro v i he
  have hr : (Event.Get v i).inRange = true := by
    simp only [List.mem_cons, List.mem_append] at he
    rcases he with he | he | he | he
    · cases he
    · exact sectionEvents_inRange _ _ _ he
    · cases he
    · exact sectionEvents_inRange _ _ _ he
  simpa [Event.inRange] using hr

theorem list_never_faults_witness :
    (0 : Int) ≤ 1 ∧ (1 : Int) < (StringVector.mk ["P1", "P2"]).Size :=
  (list_never_faults (fixedLibrary ["P1", "P2"] [] true) ⟨["list"]⟩).2.2 ⟨["P1", "P2"]⟩ 1
    (by simp [main, forLoop, fixedLibrary, NewStringVector, StringVector.IsEmpty,
      StringVector.Size, StringVector.Get])

/-- C8: the architecture filter is fixed.  For every library and every
command line, the inventory queries of the run are exactly `ListPacks` and
then `ListDevices`, once each, both with the token `"ARM"` (and a fresh
vector); and the run does not depend on the command line. -/
theorem list_queries_fixed {σ : Type} (lib : Library σ) (proc proc₂ : Process) :
    queries (main lib proc).trace =
        [.ListPacks "ARM" NewStringVector, .ListDevices "ARM" NewStringVector] ∧
      main lib proc = main lib proc₂ := by
  refine ⟨?_, ?_⟩
  · rw [main_eq]
    have h1 := queries_sectionEvents "\nInstalled 'ARM' packs:" ⟨packsResult lib⟩
    have h2 := queries_sectionEvents "\nInstalled 'ARM' devices:" ⟨devicesResult lib⟩
    unfold queries at h1 h2 ⊢
    simp [List.filter_cons, List.filter_append, Event.isQuery, h1, h2]
  · rw [main_eq, main_eq]

theorem newlines_lines (xs : List String) :
    newlines (String.join (xs.map (fun x => x ++ "\n"))) =
      xs.length + (xs.map newlines).sum := by
  induction xs with
  | nil => rfl
  | cons x xs ih =>
    have h1 : newlines "\n" = 1 := by decide
    simp only [List.map_cons, join_cons, newlines_append, ih, h1, List.length_cons,
      List.sum_cons]
    omega

theorem stdout_sectionEvents_packs (xs : List String) :
    stdout (sectionEvents "\nInstalled 'ARM' packs:" ⟨xs⟩) = sectionText "packs" xs := by
  have hhdr : "\nInstalled 'ARM' packs:" ++ "\n" = "\nInstalled 'ARM' " ++ "packs" ++ ":\n" := by
    decide
  cases xs with
  | nil => rfl
  | cons x xs => simp [stdout_sectionEvents, sectionText, hhdr]

theorem stdout_sectionEvents_devices (xs : List String) :
    stdout (sectionEvents "\nInstalled 'ARM' devices:" ⟨xs⟩) = sectionText "devices" xs := by
  have hhdr :
      "\nInstalled 'ARM' devices:" ++ "\n" = "\nInstalled 'ARM' " ++ "devices" ++ ":\n" := by
    decide
  cases xs with
  | nil => rfl
  | cons x xs => simp [stdout_sectionEvents, sectionText, hhdr]

/-- C10: the complete standard output of a run is
`sectionText "packs" p ++ sectionText "devices" d` for the `ListPacks` result
`p` and the `ListDevices` result `d`; the text of each section with a
non-empty result starts with a newline character (a blank line), and when
both results are non-empty, of `n` and `m` strings, the output has exactly
`n + m + 4` newline characters beyond those inside the identifiers. -/
theorem list_output_reference {σ : Type} (lib : Library σ) (proc : Process) :
    stdout (main lib proc).trace =
        sectionText "packs" (packsResult lib) ++ sectionText "devices" (devicesResult lib) ∧
      (packsResult lib ≠ [] →
        (stdout (packPart (main lib proc).trace)).data.head? = some '\n') ∧
      (devicesResult lib ≠ [] →
        (stdout (devicePart (main lib proc).trace)).data.head? = some '\n') ∧
      (packsResult lib ≠ [] → devicesResult lib ≠ [] →
        newlines (stdout (main lib proc).trace) =
          (packsResult lib).length + (devicesResult lib).length + 4 +
            ((packsResult lib ++ devicesResult lib).map newlines).sum) := by
  have hout : stdout (main lib proc).trace =
      sectionText "packs" (packsResult lib) ++ sectionText "devices" (devicesResult lib) := by
    rw [main_eq]
    simp only [stdout]
    rw [stdout_append]
    simp only [stdout]
    rw [stdout_sectionEvents_packs, stdout_sectionEvents_devices]
  refine ⟨hout, ?_, ?_, ?_⟩
  · intro hp
    rw [packPart_main]
    simp only [stdout]
    rw [stdout_sectionEvents_packs]
    cases hq : packsResult lib with
    | nil => exact absurd hq hp
    | cons x xs => simp [sectionText, String.append_assoc]
  · intro hd
    rw [devicePart_main]
    simp only [stdout]
    rw [stdout_sectionEvents_devices]
    cases hq : devicesResult lib with
    | nil => exact absurd hq hd
    | cons x xs => simp [sectionText, String.append_assoc]
  · intro hp hd
    rw [hout]
    have h1 : newlines ("\nInstalled 'ARM' " ++ "packs" ++ ":\n") = 2 := by decide
    have h2 : newlines ("\nInstalled 'ARM' " ++ "devices" ++ ":\n") = 2 := by decide
    cases hq : packsResult lib with
    | nil => exact absurd hq hp
    | cons x xs =>
      cases hr : devicesResult lib with
      | nil => exact absurd hr hd
      | cons y ys =>
        simp only [sectionText, newlines_append, newlines_lines, h1, h2, List.map_append,
          List.sum_append]
        omega

theorem list_output_reference_witness :
    stdout (main (fixedLibrary ["P1", "P2"] ["D1"] true) ⟨["list"]⟩).trace =
        "\nInstalled 'ARM' packs:\nP1\nP2\n\nInstalled 'ARM' devices:\nD1\n" ∧
      newlines (stdout (main (fixedLibrary ["P1", "P2"] ["D1"] true) ⟨["list"]⟩).trace) =
        2 + 1 + 4 + 0 :=
  ⟨(list_output_reference (fixedLibrary ["P1", "P2"] ["D1"] true) ⟨["list"]⟩).1.trans
      (by decide),
    ((list_output_reference (fixedLibrary ["P1", "P2"] ["D1"] true) ⟨["list"]⟩).2.2.2
      (by decide) (by decide)).trans (by decide)⟩

end ProjmgrList

/-! ## Claims on `projmgr-validate.go` -/

namespace ProjmgrValidate

theorem index_eq_ok (args : List String) (i : Nat) (s : String) (h : args[i]? = some s) :
    index args i = .ok s := by
  simp [index, h]

/-- The run of `main` when `os.Args[1]` exists, in closed form. -/
theorem main_of_arg {σ : Type} (lib : Library σ) (proc : Process) (path : String)
    (h : proc.Args[1]? = some path) :
    main lib proc =
      if (lib.ParseCsolution lib.NewProjMgr path).2 = true then
        ⟨[.ParseCsolution path, .Println (path ++ " was parsed successfully")], none⟩
      else ⟨[.ParseCsolution path], none⟩ := by
  simp only [main, index_eq_ok proc.Args 1 path h]
  cases (lib.ParseCsolution lib.NewProjMgr path).2 <;> simp

/-- The run of `main` when `os.Args[1]` does not exist, in closed form. -/
theorem main_of_no_arg {σ : Type} (lib : Library σ) (proc : Process)
    (h : proc.Args[1]? = none) :
    main lib proc = ⟨[], some "runtime error: index out of range"⟩ := by
  simp [main, index, h]

/-- C1: for every first positional argument `path` and every verdict of the
parser, the parser is asked once, about exactly `path`, and the standard
output is the one line `<path> was parsed successfully` when the verdict is
true and empty when it is false. -/
theorem validate_output {σ : Type} (lib : Library σ) (proc : Process) (path : String)
    (h : proc.Args[1]? = some path) :
    parsedPaths (main lib proc).trace = [path] ∧
      printed (main lib proc).trace =
        (if (lib.ParseCsolution lib.NewProjMgr path).2 = true
         then [path ++ " was parsed successfully"] else []) ∧
      stdout (main lib proc).trace =
        (if (lib.ParseCsolution lib.NewProjMgr path).2 = true
         then path ++ " was parsed successfully" ++ "\n" else "") := by
  rw [main_of_arg lib proc path h]
  cases (lib.ParseCsolution lib.NewProjMgr path).2 <;>
    simp [parsedPaths, printed, stdout]

theorem validate_output_witness :
    stdout (main (fixedLibrary [] [] true) ⟨["validate", "app.csolution.yml"]⟩).trace =
        "app.csolution.yml was parsed successfully\n" ∧
      stdout (main (fixedLibrary [] [] false) ⟨["validate", "app.csolution.yml"]⟩).trace =
        "" :=
  ⟨(validate_output (fixedLibrary [] [] true) ⟨["validate", "app.csolution.yml"]⟩
      "app.csolution.yml" rfl).2.2.trans (by decide),
    (validate_output (fixedLibrary [] [] false) ⟨["validate", "app.csolution.yml"]⟩
      "app.csolution.yml" rfl).2.2.trans (by decide)⟩

/-- C6, as stated, fails: on the command line `validate ""` the parser is
asked about the empty string. -/
theorem validate_empty_path_is_parsed :
    parsedPaths (main (fixedLibrary [] [] false) ⟨["validate", ""]⟩).trace = [""] := by
  decide

/-- C6, amended: the parser is asked about the empty string exactly when the
first positional argument is the empty string; a non-empty first argument is
never replaced by the empty string. -/
theorem validate_empty_path_iff {σ : Type} (lib : Library σ) (proc : Process) :
    "" ∈ parsedPaths (main lib proc).trace ↔ proc.Args[1]? = some "" := by
  cases h : proc.Args[1]? with
  | none =>
    rw [main_of_no_arg lib proc h]
    simp [parsedPaths]
  | some path =>
    rw [main_of_arg lib proc path h]
    cases (lib.ParseCsolution lib.NewProjMgr path).2 <;>
      simp [parsedPaths, eq_comm]

/-- C9: with no positional argument (`os.Args` of length 1) the run ends in
a runtime fault, having printed nothing and never asked the parser; with at
least one positional argument the run ends without a fault, and the arguments
after the first have no effect on it. -/
theorem validate_args {σ : Type} (lib : Library σ) (prog path : String)
    (rest rest₂ : List String) :
    ((main lib ⟨[prog]⟩).fault ≠ none ∧ (main lib ⟨[prog]⟩).exitCode ≠ 0 ∧
        stdout (main lib ⟨[prog]⟩).trace = "" ∧
        printed (main lib ⟨[prog]⟩).trace = [] ∧
        parsedPaths (main lib ⟨[prog]⟩).trace = []) ∧
      (main lib ⟨prog :: path :: rest⟩).fault = none ∧
      main lib ⟨prog :: path :: rest⟩ = main lib ⟨prog :: path :: rest₂⟩ := by
  refine ⟨?_, ?_, ?_⟩
  · rw [main_of_no_arg lib ⟨[prog]⟩ rfl]
    simp [Run.exitCode, stdout, printed, parsedPaths]
  · rw [main_of_arg lib ⟨prog :: path :: rest⟩ path (by simp)]
    cases (lib.ParseCsolution lib.NewProjMgr path).2 <;> simp
  · rw [main_of_arg lib ⟨prog :: path :: rest⟩ path (by simp),
      main_of_arg lib ⟨prog :: path :: rest₂⟩ path (by simp)]

end ProjmgrValidate

end Projmgr
